import Mathlib

/-!
Verification of the chunked-container codec and gain transform of
`adjust_wav_volume.py`.

The embedding models byte buffers as `List Nat` (each element a byte value),
the Python `dict` of chunks as an insertion-ordered association list with
replace-in-place insertion, and the numpy float32 sample pipeline as exact
integer arithmetic with an explicit round-to-nearest-even-float32 function
(`roundF32Int`), which is exact for the integer-valued intermediate results
that arise when the linear gain factor is an integer exactly representable
in float32 (the factors 1 and 2 used by the properties below).
-/

namespace AdjustWav

/-- Byte buffers: lists of byte values (each `< 256` in well-formed inputs). -/
abbrev Bytes := List Nat

/-- The errors the script can raise, named after the specification's error
kinds where one exists.  `formatError` is the `ValueError` for a bad RIFF or
WAVE tag, `structError` is `struct.error` from `struct.unpack`/`pack`,
`unicodeDecodeError` is raised by `bytes.decode('ascii')` (without a
`replace` handler), `missingChunk` is the `ValueError` for a missing `data`
chunk, `unsupportedFormat` is the `ValueError` for a sample width outside
{1,2,4}, `bufferSize` is the `ValueError` raised by `np.frombuffer` when the
payload length is not a multiple of the element size, and
`unicodeEncodeError` is raised by `str.encode('ascii')` on a non-ASCII
chunk identifier. -/
inductive PyError where
  | formatError
  | structError
  | unicodeDecodeError
  | missingChunk
  | unsupportedFormat
  | bufferSize
  | unicodeEncodeError
  deriving DecidableEq, Repr

/-- Little-endian 4-byte encoding, `struct.pack('<I', n)` (caller must keep
`n < 2^32`). -/
def leU32 (n : Nat) : Bytes :=
  [n % 256, n / 256 % 256, n / 2 ^ 16 % 256, n / 2 ^ 24 % 256]

/-- Little-endian 4-byte read, `struct.unpack('<I', b[:4])[0]`. -/
def readU32 : Bytes → Nat
  | b0 :: b1 :: b2 :: b3 :: _ => b0 + 256 * b1 + 2 ^ 16 * b2 + 2 ^ 24 * b3
  | _ => 0

/-- A chunk identifier as decoded by Python: a list of Unicode code points
(bytes below 128 decode to themselves, the rest to U+FFFD). -/
abbrev ChunkId := List Nat

/-- One chunk: decoded identifier and raw payload bytes. -/
abbrev Chunk := ChunkId × Bytes

/-- The Python `dict` of chunks: insertion-ordered association list. -/
abbrev ChunkSet := List Chunk

/-- Model of `bytes.decode('ascii', errors="replace")`: bytes below 128 map
to themselves, all others to the replacement character U+FFFD (65533). -/
def decodeAsciiReplace (bs : Bytes) : ChunkId :=
  bs.map (fun b => if b < 128 then b else 65533)

/-- Python `dict` lookup `chunks[k]` / `k in chunks`. -/
def dictLookup (k : ChunkId) : ChunkSet → Option Bytes
  | [] => none
  | (k', v) :: r => if k' = k then some v else dictLookup k r

/-- Python `dict` assignment `chunks[k] = v`: replaces the value in place if
the key is present (keeping its original position), else appends. -/
def dictInsert (k : ChunkId) (v : Bytes) : ChunkSet → ChunkSet
  | [] => [(k, v)]
  | (k', v') :: r => if k' = k then (k, v) :: r else (k', v') :: dictInsert k v r

/-- The bytes of `'RIFF'`. -/
def riffTag : Bytes := [82, 73, 70, 70]

/-- The bytes of `'WAVE'`. -/
def waveTag : Bytes := [87, 65, 86, 69]

/-- The code points of `'data'`. -/
def dataId : ChunkId := [100, 97, 116, 97]

/-- The chunk-reading loop of `read_wav_chunks`, phrased on the suffix of the
buffer that starts at the current read position `pos` (Python's
`data[pos:...]` slices become `take`/`drop` on the suffix).  The loop runs
while at least 8 bytes remain for a header, stops (returning the chunks
accumulated so far) when the declared payload length would read past the end
of the buffer, and skips one padding byte after an odd-length payload.  The
`fuel` argument only bounds the recursion; every iteration consumes at least
8 bytes of the suffix, so the fuel `rest.length + 1` supplied by
`read_wav_chunks` is never exhausted. -/
def readChunksGo : Nat → Bytes → ChunkSet → ChunkSet
  | 0, _, cs => cs
  | fuel + 1, rest, cs =>
    if 8 ≤ rest.length then
      let cid := decodeAsciiReplace (rest.take 4)
      let csize := readU32 (rest.drop 4)
      if 8 + csize ≤ rest.length then
        let cdata := (rest.drop 8).take csize
        let skip := if csize % 2 = 1 then 8 + csize + 1 else 8 + csize
        readChunksGo fuel (rest.drop skip) (dictInsert cid cdata cs)
      else cs
    else cs

/-- Model of `read_wav_chunks`: validates the `RIFF` tag (a byte ≥ 128 in the
first four bytes makes `decode('ascii')` itself fail), reads the declared
size, validates the `WAVE` tag, then runs the chunk loop from offset 12. -/
def read_wav_chunks (data : Bytes) : Except PyError (ChunkSet × Nat) :=
  if (data.take 4).any (fun b => 128 ≤ b) then .error .unicodeDecodeError
  else if data.take 4 ≠ riffTag then .error .formatError
  else if data.length < 8 then .error .structError
  else
    let fileSize := readU32 (data.drop 4)
    if ((data.drop 8).take 4).any (fun b => 128 ≤ b) then .error .unicodeDecodeError
    else if (data.drop 8).take 4 ≠ waveTag then .error .formatError
    else .ok (readChunksGo ((data.drop 12).length + 1) (data.drop 12) [], fileSize)

/-- The bytes `write_wav_chunks` emits for one chunk: identifier, 4-byte
little-endian payload length, payload — and no padding byte. -/
def chunkBytes (c : Chunk) : Bytes := c.1 ++ leU32 c.2.length ++ c.2

/-- Concatenated encoding of a chunk list, in iteration order. -/
def rawStream : ChunkSet → Bytes
  | [] => []
  | c :: r => chunkBytes c ++ rawStream r

/-- Whether one chunk can be written: `chunk_id.encode('ascii')` requires all
code points below 128, and `struct.pack('<I', len)` requires the length to
fit in 32 bits. -/
def chunkOk (c : Chunk) : Bool :=
  c.1.all (fun b => decide (b < 128)) && decide (c.2.length < 2 ^ 32)

/-- The chunk-writing loop of `write_wav_chunks`; `none` models the
`UnicodeEncodeError`/`struct.error` raised on an unencodable chunk. -/
def writeChunksList (L : ChunkSet) : Option Bytes :=
  if L.all chunkOk then some (rawStream L) else none

/-- Model of `write_wav_chunks`: RIFF tag, little-endian declared size, WAVE
tag, then every chunk in iteration order. -/
def write_wav_chunks (chunks : ChunkSet) (originalSize : Nat) : Option Bytes :=
  if originalSize < 2 ^ 32 then
    (writeChunksList chunks).map
      (fun body => riffTag ++ leU32 originalSize ++ waveTag ++ body)
  else none

/-- Interpret `w` bytes as an unsigned little-endian integer. -/
def bytesToNatLE : Bytes → Nat
  | [] => 0
  | b :: r => b + 256 * bytesToNatLE r

/-- Serialize `n` as `w` little-endian bytes. -/
def natToBytesLE : Nat → Nat → Bytes
  | 0, _ => []
  | w + 1, n => n % 256 :: natToBytesLE w (n / 256)

/-- Two's-complement reading of a `w`-byte unsigned value as signed
(numpy's `int16`/`int32` view of the raw bytes). -/
def toSigned (w : Nat) (n : Nat) : Int :=
  if n < 2 ^ (8 * w - 1) then (n : Int) else (n : Int) - 2 ^ (8 * w)

/-- Two's-complement encoding of a signed value back to a `w`-byte unsigned
value. -/
def toUnsigned (w : Nat) (v : Int) : Nat := (v % 2 ^ (8 * w)).toNat

/-- Fuel-driven floor of the base-2 logarithm (the fuel `n` always suffices
because the argument at least halves each step). -/
def log2Go : Nat → Nat → Nat
  | 0, _ => 0
  | fuel + 1, n => if 2 ≤ n then log2Go fuel (n / 2) + 1 else 0

/-- Floor of the base-2 logarithm. -/
def floorLog2 (n : Nat) : Nat := log2Go n n

/-- Round a natural number to the nearest value representable in an IEEE-754
binary32 significand (24 bits), ties to even.  Numbers below `2^24` are
exact; a number with `2^k ≤ n < 2^(k+1)` for `k ≥ 24` rounds to the nearest
multiple of `2^(k-23)`. -/
def roundSig (n : Nat) : Nat :=
  if n < 2 ^ 24 then n
  else
    let step := 2 ^ (floorLog2 n - 23)
    let q := n / step
    let r := n % step
    if 2 * r < step then q * step
    else if step < 2 * r then (q + 1) * step
    else if q % 2 = 0 then q * step else (q + 1) * step

/-- Round an integer to the nearest float32-representable integer (the value
`astype(np.float32)` stores for an integer sample; exact IEEE-754
round-to-nearest-even for integers of magnitude below `2^128`). -/
def roundF32Int (x : Int) : Int :=
  if x < 0 then -(roundSig x.natAbs : Int) else (roundSig x.natAbs : Int)

/-- The C-style cast `astype(np.int16)`/`astype(np.int32)` applied to an
integer-valued float: for width 4 an out-of-range value produces the
x86 `cvttss2si` invalid result `-2^31`; for smaller widths the conversion
goes through a wider integer and keeps the low bits (two's complement).
Values inside the representable range are returned unchanged in either
case. -/
def castIntW (w : Nat) (v : Int) : Int :=
  if w = 4 then
    if v < -(2 ^ 31) ∨ 2 ^ 31 - 1 < v then -(2 ^ 31) else v
  else toSigned w ((v % 2 ^ (8 * w)).toNat)

/-- The per-sample pipeline of `reduce_volume` for signed widths (2 and 4):
`astype(np.float32)`, multiply by the gain factor, `np.clip` with the bounds
`-(2^(8w-1))` and `2^(8w-1) - 1` (themselves converted to float32), then
`astype` back to the integer dtype.  Exact for integer float32-representable
factors. -/
def transformSampleSigned (w : Nat) (factor : Int) (s : Int) : Int :=
  let x := roundF32Int s
  let y := roundF32Int (x * factor)
  let hi := roundF32Int (2 ^ (8 * w - 1) - 1)
  let lo := roundF32Int (-(2 ^ (8 * w - 1)))
  castIntW w (max lo (min hi y))

/-- The per-sample pipeline of `reduce_volume` for width 1 (unsigned 8-bit):
`astype(np.float32)`, subtract 128, multiply by the gain factor, clip to
`[-128, 127]`, `astype(np.uint8)` (a C cast keeping the value modulo 256),
then add 128 back with `uint8` wraparound. -/
def transformSampleU8 (factor : Int) (b : Nat) : Nat :=
  let x := (b : Int) - 128
  let y := roundF32Int (x * factor)
  let c := max (roundF32Int (-(2 ^ 7))) (min (roundF32Int (2 ^ 7 - 1)) y)
  ((c % 256).toNat + 128) % 256

/-- Map a per-sample function over a payload viewed as little-endian 16-bit
samples (numpy `frombuffer(..., np.int16)` then `tobytes()` on a
little-endian machine). -/
def mapSamples2 (f : Int → Int) : Bytes → Bytes
  | a :: b :: rest =>
    natToBytesLE 2 (toUnsigned 2 (f (toSigned 2 (bytesToNatLE [a, b])))) ++
      mapSamples2 f rest
  | _ => []

/-- Map a per-sample function over a payload viewed as little-endian 32-bit
samples. -/
def mapSamples4 (f : Int → Int) : Bytes → Bytes
  | a :: b :: c :: d :: rest =>
    natToBytesLE 4 (toUnsigned 4 (f (toSigned 4 (bytesToNatLE [a, b, c, d])))) ++
      mapSamples4 f rest
  | _ => []

/-- The payload transformation of `reduce_volume`, parameterized over the
per-sample maps (`fU8` for the unsigned width-1 path, `fS` for the signed
paths); every concrete gain factor induces such per-sample maps because all
the numpy operations involved are elementwise.  `np.frombuffer` raises when
the payload length is not a multiple of the element size (`bufferSize`), and
a width outside {1,2,4} hits the `else: raise` branch
(`unsupportedFormat`). -/
def transformPayloadG (w : Nat) (fU8 : Nat → Nat) (fS : Int → Int)
    (payload : Bytes) : Except PyError Bytes :=
  if w = 1 then .ok (payload.map fU8)
  else if w = 2 then
    if payload.length % 2 = 0 then .ok (mapSamples2 fS payload)
    else .error .bufferSize
  else if w = 4 then
    if payload.length % 4 = 0 then .ok (mapSamples4 fS payload)
    else .error .bufferSize
  else .error .unsupportedFormat

/-- The payload transformation at a concrete integer gain factor. -/
def transformPayload (w : Nat) (factor : Int) (payload : Bytes) :
    Except PyError Bytes :=
  transformPayloadG w (transformSampleU8 factor) (transformSampleSigned w factor)
    payload

/-- The chunk-level part of `reduce_volume`, parameterized over the
per-sample maps.  The first component of the result is the state of the
chunk dict when the function finishes or raises: the only mutation in the
source is `chunks['data'] = new_frames`, which runs after every fallible
step, so on an error the dict is unchanged.  On success the second component
carries the `new_size` value passed to `write_wav_chunks`, computed exactly
as in the source: `original_size - len(chunks['data']) + len(new_frames)`
with `chunks['data']` already replaced. -/
def reduceVolumeG (chunks : ChunkSet) (originalSize : Nat) (w : Nat)
    (fU8 : Nat → Nat) (fS : Int → Int) : ChunkSet × Except PyError Int :=
  match dictLookup dataId chunks with
  | none => (chunks, .error .missingChunk)
  | some audio =>
    match transformPayloadG w fU8 fS audio with
    | .error e => (chunks, .error e)
    | .ok newFrames =>
      let chunks' := dictInsert dataId newFrames chunks
      let newLen := ((dictLookup dataId chunks').getD []).length
      (chunks', .ok ((originalSize : Int) - newLen + newFrames.length))

/-- `reduce_volume` at a concrete integer gain factor
(`factor = 10 ** (db_change / 20)`; `db_change = 0` gives factor exactly
1.0). -/
def reduce_volume (chunks : ChunkSet) (originalSize : Nat) (w : Nat)
    (factor : Int) : ChunkSet × Except PyError Int :=
  reduceVolumeG chunks originalSize w (transformSampleU8 factor)
    (transformSampleSigned w factor)

/-- The whole per-file pipeline: decode, transform, re-encode. -/
def processBuffer (data : Bytes) (w : Nat) (factor : Int) :
    Except PyError Bytes :=
  match read_wav_chunks data with
  | .error e => .error e
  | .ok (chunks, sz) =>
    match reduce_volume chunks sz w factor with
    | (_, .error e) => .error e
    | (chunks', .ok newSize) =>
      if 0 ≤ newSize ∧ newSize < 2 ^ 32 then
        match write_wav_chunks chunks' newSize.toNat with
        | some out => .ok out
        | none => .error .unicodeEncodeError
      else .error .structError

/-- Folding a chunk list into a chunk dict, as the read loop does. -/
def foldIns (acc : ChunkSet) (L : ChunkSet) : ChunkSet :=
  L.foldl (fun cs c => dictInsert c.1 c.2 cs) acc

example : roundSig 16777217 = 16777216 := by decide
example : roundSig 2147483647 = 2147483648 := by decide
example : roundF32Int 3000000000 = 3000000000 := by decide
example : transformSampleSigned 2 2 32767 = 32767 := by decide
example : transformSampleSigned 2 2 (-32768) = -32768 := by decide
example : transformSampleSigned 4 2 1500000000 = -(2 ^ 31) := by decide
example : transformSampleSigned 4 1 16777217 = 16777216 := by decide
example : transformSampleU8 1 255 = 255 := by decide
example : transformSampleU8 1 0 = 0 := by decide
example : transformPayload 4 1 [1, 0, 0, 1] = .ok [0, 0, 0, 1] := rfl

/-! ### Serialization lemmas -/

lemma leU32_length (n : Nat) : (leU32 n).length = 4 := rfl

lemma readU32_leU32 (n : Nat) (tail : Bytes) (h : n < 2 ^ 32) :
    readU32 (leU32 n ++ tail) = n := by
  simp only [leU32, readU32, List.cons_append, List.nil_append]
  omega

/-! ### Dict lemmas -/

lemma dictLookup_insert (k k' : ChunkId) (v : Bytes) (cs : ChunkSet) :
    dictLookup k' (dictInsert k v cs) =
      if k = k' then some v else dictLookup k' cs := by
  induction cs with
  | nil => simp [dictInsert, dictLookup]
  | cons c r ih =>
    obtain ⟨ck, cv⟩ := c
    by_cases h1 : ck = k
    · subst h1
      by_cases h2 : ck = k' <;> simp [dictInsert, dictLookup, h2]
    · by_cases h2 : ck = k'
      · subst h2
        simp [dictInsert, dictLookup, h1, Ne.symm h1]
      · simp [dictInsert, dictLookup, h1, h2, ih]

lemma dictInsert_of_notMem (k : ChunkId) (v : Bytes) (cs : ChunkSet)
    (h : ∀ c ∈ cs, c.1 ≠ k) : dictInsert k v cs = cs ++ [(k, v)] := by
  induction cs with
  | nil => simp [dictInsert]
  | cons c r ih =>
    have hc : c.1 ≠ k := h c (by simp)
    simp only [dictInsert, List.cons_append]
    rw [if_neg hc, ih (fun c' hc' => h c' (by simp [hc']))]

lemma foldIns_cons (acc : ChunkSet) (c : Chunk) (L : ChunkSet) :
    foldIns acc (c :: L) = foldIns (dictInsert c.1 c.2 acc) L := rfl

lemma foldIns_lookup (L : ChunkSet) : ∀ (acc : ChunkSet) (k : ChunkId),
    dictLookup k (foldIns acc L) =
      match (L.filter (fun c => decide (c.1 = k))).getLast? with
      | some c => some c.2
      | none => dictLookup k acc := by
  induction L with
  | nil => intro acc k; simp [foldIns]
  | cons c r ih =>
    intro acc k
    rw [foldIns_cons, ih]
    by_cases hck : c.1 = k
    · rw [List.filter_cons_of_pos (by simp [hck])]
      cases hfr : r.filter (fun c => decide (c.1 = k)) with
      | nil => simp [dictLookup_insert, hck]
      | cons c' r' =>
        rw [List.getLast?_cons_cons]
        cases hgl : (c' :: r').getLast? with
        | none => simp at hgl
        | some cl => rfl
    · rw [List.filter_cons_of_neg (by simp [hck])]
      cases hgl : (r.filter (fun c => decide (c.1 = k))).getLast? with
      | none => simp [dictLookup_insert, hck]
      | some cl => rfl

lemma foldIns_nodup (L : ChunkSet) : ∀ (acc : ChunkSet),
    (∀ c ∈ L, ∀ c' ∈ acc, c'.1 ≠ c.1) → (L.map Prod.fst).Nodup →
    foldIns acc L = acc ++ L := by
  induction L with
  | nil => intro acc _ _; simp [foldIns]
  | cons c r ih =>
    intro acc hdisj hnd
    rw [foldIns_cons,
      dictInsert_of_notMem _ _ _ (fun c' hc' => hdisj c (by simp) c' hc'), ih]
    · simp
    · intro x hx c' hc'
      rcases List.mem_append.1 hc' with hmem | hmem
      · exact hdisj x (by simp [hx]) c' hmem
      · simp only [List.mem_singleton] at hmem
        subst hmem
        simp only [List.map_cons, List.nodup_cons] at hnd
        intro heq
        exact hnd.1 (by rw [heq]; exact List.mem_map_of_mem Prod.fst hx)
    · simp only [List.map_cons, List.nodup_cons] at hnd
      exact hnd.2

/-! ### Read-loop lemmas -/

lemma readChunksGo_nilBytes (fuel : Nat) (cs : ChunkSet) :
    readChunksGo fuel [] cs = cs := by
  cases fuel <;> simp [readChunksGo]

lemma readChunksGo_short (fuel : Nat) (rest : Bytes) (cs : ChunkSet)
    (h : rest.length < 8) : readChunksGo fuel rest cs = cs := by
  cases fuel with
  | zero => rfl
  | succ f => rw [readChunksGo, if_neg (by omega)]

lemma readChunksGo_truncated (fuel : Nat) (rest : Bytes) (cs : ChunkSet)
    (h8 : 8 ≤ rest.length) (h : rest.length < 8 + readU32 (rest.drop 4)) :
    readChunksGo fuel rest cs = cs := by
  cases fuel with
  | zero => rfl
  | succ f =>
    rw [readChunksGo, if_pos h8]
    simp only []
    rw [if_neg (by omega)]

lemma rawStream_cons (c : Chunk) (r : ChunkSet) :
    rawStream (c :: r) = c.1 ++ (leU32 c.2.length ++ (c.2 ++ rawStream r)) := by
  simp [rawStream, chunkBytes, List.append_assoc]

lemma rawStream_length_ge (L : ChunkSet) (h4 : ∀ c ∈ L, c.1.length = 4) :
    L.length ≤ (rawStream L).length := by
  induction L with
  | nil => simp [rawStream]
  | cons c r ih =>
    have hc := h4 c (by simp)
    have hr := ih (fun c' h => h4 c' (by simp [h]))
    rw [rawStream_cons]
    simp only [List.length_append, List.length_cons, leU32_length, hc]
    omega

lemma decodeAsciiReplace_ascii : ∀ (l : Bytes), (∀ b ∈ l, b < 128) →
    decodeAsciiReplace l = l
  | [], _ => rfl
  | b :: r, h => by
    have hb : b < 128 := h b (by simp)
    have hr := decodeAsciiReplace_ascii r (fun x hx => h x (by simp [hx]))
    simp only [decodeAsciiReplace, List.map_cons, if_pos hb]
    simpa [decodeAsciiReplace] using hr

/-- Running the chunk-reading loop over the exact byte stream that
`write_wav_chunks` emits for a chunk list deposits those chunks (with their
identifiers re-decoded) into the accumulator dict in order, provided every
payload except possibly the last has even length (otherwise the pad-skip
rule desynchronizes the stream — see the C3 counterexample). -/
lemma readChunksGo_rawStream (L : ChunkSet) : ∀ (fuel : Nat) (acc : ChunkSet),
    (∀ c ∈ L, c.1.length = 4) →
    (∀ c ∈ L, c.2.length < 2 ^ 32) →
    (∀ c ∈ L.dropLast, c.2.length % 2 = 0) →
    L.length < fuel →
    readChunksGo fuel (rawStream L) acc =
      foldIns acc (L.map (fun c => (decodeAsciiReplace c.1, c.2))) := by
  induction L with
  | nil =>
    intro fuel acc _ _ _ _
    rw [show rawStream [] = [] from rfl, readChunksGo_nilBytes]
    simp [foldIns]
  | cons c r ih =>
    intro fuel acc h4 hsz heven hfuel
    obtain ⟨f, rfl⟩ : ∃ f, fuel = f + 1 := ⟨fuel - 1, by omega⟩
    have hc4 : c.1.length = 4 := h4 c (by simp)
    have hcsz : c.2.length < 2 ^ 32 := hsz c (by simp)
    have hstream := rawStream_cons c r
    have hlen : (rawStream (c :: r)).length = 8 + c.2.length + (rawStream r).length := by
      rw [hstream]; simp [hc4, leU32_length]; omega
    have htake : (rawStream (c :: r)).take 4 = c.1 := by
      rw [hstream]; exact List.take_left' hc4
    have hread : readU32 ((rawStream (c :: r)).drop 4) = c.2.length := by
      rw [hstream, List.drop_left' hc4]
      exact readU32_leU32 _ _ hcsz
    have hstream8 : rawStream (c :: r) =
        (c.1 ++ leU32 c.2.length) ++ (c.2 ++ rawStream r) := by
      rw [hstream]; simp [List.append_assoc]
    have hdrop8 : (rawStream (c :: r)).drop 8 = c.2 ++ rawStream r := by
      rw [hstream8]; exact List.drop_left' (by simp [hc4, leU32_length])
    have htakeP : ((rawStream (c :: r)).drop 8).take c.2.length = c.2 := by
      rw [hdrop8]; exact List.take_left' rfl
    simp only [readChunksGo, hread, htake, htakeP]
    rw [if_pos (show 8 ≤ (rawStream (c :: r)).length by omega),
      if_pos (show 8 + c.2.length ≤ (rawStream (c :: r)).length by omega)]
    simp only [List.map_cons, foldIns_cons]
    by_cases hodd : c.2.length % 2 = 1
    · rw [if_pos hodd]
      cases r with
      | nil =>
        rw [List.drop_eq_nil_of_le (by rw [hlen]; simp [rawStream]),
          readChunksGo_nilBytes]
        simp [foldIns]
      | cons c2 r2 =>
        exfalso
        have hc_mem : c ∈ (c :: c2 :: r2).dropLast := by simp
        have := heven c hc_mem
        omega
    · rw [if_neg hodd]
      have hstreamP : rawStream (c :: r) =
          ((c.1 ++ leU32 c.2.length) ++ c.2) ++ rawStream r := by
        rw [hstream]; simp [List.append_assoc]
      have hdropSkip : (rawStream (c :: r)).drop (8 + c.2.length) = rawStream r := by
        rw [hstreamP]
        exact List.drop_left' (by simp [hc4, leU32_length]; omega)
      rw [hdropSkip]
      have hevenR : ∀ c' ∈ r.dropLast, c'.2.length % 2 = 0 := by
        intro x hx
        apply heven
        cases r with
        | nil => simp at hx
        | cons y ys =>
          rw [List.dropLast_cons₂]
          exact List.mem_cons_of_mem c hx
      have hlenR : r.length < f := by
        simp only [List.length_cons] at hfuel
        omega
      exact ih f _ (fun c' h => h4 c' (by simp [h]))
        (fun c' h => hsz c' (by simp [h])) hevenR hlenR

/-- Decoding a buffer made of the RIFF tag, a little-endian declared size,
the WAVE tag and a chunk byte stream succeeds and runs the chunk loop on the
stream. -/
lemma read_wav_chunks_append (sz : Nat) (body : Bytes) (hsz : sz < 2 ^ 32) :
    read_wav_chunks (riffTag ++ leU32 sz ++ waveTag ++ body) =
      .ok (readChunksGo (body.length + 1) body [], sz) := by
  have ha : riffTag ++ leU32 sz ++ waveTag ++ body
      = riffTag ++ (leU32 sz ++ (waveTag ++ body)) := by simp [List.append_assoc]
  have htake4 : (riffTag ++ leU32 sz ++ waveTag ++ body).take 4 = riffTag := by
    rw [ha]; exact List.take_left' rfl
  have hdrop4 : (riffTag ++ leU32 sz ++ waveTag ++ body).drop 4
      = leU32 sz ++ (waveTag ++ body) := by
    rw [ha]; exact List.drop_left' rfl
  have hb : riffTag ++ leU32 sz ++ waveTag ++ body
      = (riffTag ++ leU32 sz) ++ (waveTag ++ body) := by simp [List.append_assoc]
  have hdrop8 : (riffTag ++ leU32 sz ++ waveTag ++ body).drop 8
      = waveTag ++ body := by
    rw [hb]; exact List.drop_left' (by simp [leU32_length, riffTag])
  have htake8 : ((riffTag ++ leU32 sz ++ waveTag ++ body).drop 8).take 4
      = waveTag := by
    rw [hdrop8]; exact List.take_left' rfl
  have hc : riffTag ++ leU32 sz ++ waveTag ++ body
      = ((riffTag ++ leU32 sz) ++ waveTag) ++ body := by simp [List.append_assoc]
  have hdrop12 : (riffTag ++ leU32 sz ++ waveTag ++ body).drop 12 = body := by
    rw [hc]; exact List.drop_left' (by simp [leU32_length, riffTag, waveTag])
  have hlen : (riffTag ++ leU32 sz ++ waveTag ++ body).length = 12 + body.length := by
    simp [riffTag, waveTag, leU32]; omega
  simp only [read_wav_chunks, htake4, hdrop4, htake8, hdrop12,
    readU32_leU32 sz (waveTag ++ body) hsz]
  rw [if_neg (by decide), if_neg (by simp), if_neg (by omega), if_neg (by decide),
    if_neg (by simp)]

/-- What a successful `write_wav_chunks` call tells us: the declared size and
all payload lengths fit in 32 bits, all identifier code points are ASCII, and
the output is the header followed by the chunk stream. -/
lemma write_wav_chunks_some (L : ChunkSet) (sz : Nat) (data : Bytes)
    (h : write_wav_chunks L sz = some data) :
    sz < 2 ^ 32 ∧ (∀ c ∈ L, (∀ b ∈ c.1, b < 128) ∧ c.2.length < 2 ^ 32) ∧
      data = riffTag ++ leU32 sz ++ waveTag ++ rawStream L := by
  by_cases hsz : sz < 2 ^ 32
  · rw [write_wav_chunks, if_pos hsz, writeChunksList] at h
    by_cases hall : L.all chunkOk
    · rw [if_pos hall] at h
      rw [Option.map_some', Option.some_inj] at h
      refine ⟨hsz, ?_, h.symm⟩
      intro c hc
      have hck := List.all_eq_true.1 hall c hc
      rw [chunkOk, Bool.and_eq_true] at hck
      constructor
      · intro b hb
        have := List.all_eq_true.1 hck.1 b hb
        simpa using this
      · simpa using hck.2
    · rw [if_neg hall] at h
      simp at h
  · rw [write_wav_chunks, if_neg hsz] at h
    simp at h

/-! ### Sample-pipeline lemmas -/

lemma roundSig_small (n : Nat) (h : n < 2 ^ 24) : roundSig n = n := by
  rw [roundSig, if_pos h]

lemma roundF32Int_small (x : Int) (h : x.natAbs < 2 ^ 24) : roundF32Int x = x := by
  rw [roundF32Int, roundSig_small _ h]
  split_ifs <;> omega

lemma transformSampleSigned_two_one (s : Int) (h1 : -(2 ^ 15) ≤ s)
    (h2 : s < 2 ^ 15) : transformSampleSigned 2 1 s = s := by
  have hx : roundF32Int s = s := roundF32Int_small _ (by omega)
  have hhi : roundF32Int ((2 : Int) ^ (8 * 2 - 1) - 1) = 32767 := by decide
  have hlo : roundF32Int (-((2 : Int) ^ (8 * 2 - 1))) = -32768 := by decide
  simp only [transformSampleSigned, mul_one, hx, hhi, hlo]
  rw [min_eq_right (by omega), max_eq_right (by omega)]
  simp only [castIntW, toSigned]
  split_ifs <;> omega

lemma bytesToNatLE_two (a b : Nat) : bytesToNatLE [a, b] = a + 256 * b := by
  simp [bytesToNatLE]

lemma group2_id (a b : Nat) (ha : a < 256) (hb : b < 256) :
    natToBytesLE 2 (toUnsigned 2 (transformSampleSigned 2 1
      (toSigned 2 (bytesToNatLE [a, b])))) = [a, b] := by
  rw [bytesToNatLE_two]
  have hTS : transformSampleSigned 2 1 (toSigned 2 (a + 256 * b))
      = toSigned 2 (a + 256 * b) := by
    apply transformSampleSigned_two_one <;>
      · simp only [toSigned]
        split_ifs <;> omega
  rw [hTS]
  have hU : toUnsigned 2 (toSigned 2 (a + 256 * b)) = a + 256 * b := by
    simp only [toUnsigned, toSigned]
    split_ifs <;> omega
  rw [hU]
  have e1 : (a + 256 * b) % 256 = a := by omega
  have e2 : (a + 256 * b) / 256 % 256 = b := by omega
  simp [natToBytesLE, e1, e2]

lemma mapSamples2_id : ∀ (payload : Bytes), (∀ b ∈ payload, b < 256) →
    payload.length % 2 = 0 →
    mapSamples2 (transformSampleSigned 2 1) payload = payload
  | [], _, _ => rfl
  | [a], _, he => by simp at he
  | a :: b :: rest, hb, he => by
    have ha' : a < 256 := hb a (by simp)
    have hb' : b < 256 := hb b (by simp)
    have hrec := mapSamples2_id rest (fun x hx => hb x (by simp [hx]))
      (by simp only [List.length_cons] at he; omega)
    rw [mapSamples2, hrec, group2_id a b ha' hb']
    rfl

lemma transformSampleU8_one (b : Nat) (hb : b < 256) :
    transformSampleU8 1 b = b := by
  have h1 : roundF32Int ((b : Int) - 128) = (b : Int) - 128 :=
    roundF32Int_small _ (by omega)
  have hlo : roundF32Int (-((2 : Int) ^ 7)) = -128 := by decide
  have hhi : roundF32Int ((2 : Int) ^ 7 - 1) = 127 := by decide
  simp only [transformSampleU8, mul_one, h1, hlo, hhi]
  rw [min_eq_right (by omega), max_eq_right (by omega)]
  omega

lemma map_transformSampleU8_one : ∀ (payload : Bytes),
    (∀ b ∈ payload, b < 256) → payload.map (transformSampleU8 1) = payload
  | [], _ => rfl
  | b :: rest, hb => by
    rw [List.map_cons, transformSampleU8_one b (hb b (by simp)),
      map_transformSampleU8_one rest (fun x hx => hb x (by simp [hx]))]

/-! ### Length preservation -/

lemma natToBytesLE_length (w : Nat) : ∀ (n : Nat), (natToBytesLE w n).length = w := by
  induction w with
  | zero => intro n; rfl
  | succ w ih => intro n; simp [natToBytesLE, ih]

lemma mapSamples2_length (f : Int → Int) : ∀ (p : Bytes), p.length % 2 = 0 →
    (mapSamples2 f p).length = p.length
  | [], _ => rfl
  | [a], h => by simp at h
  | a :: b :: rest, h => by
    have hrec := mapSamples2_length f rest
      (by simp only [List.length_cons] at h; omega)
    simp [mapSamples2, natToBytesLE_length, hrec]
    omega

lemma mapSamples4_length (f : Int → Int) : ∀ (p : Bytes), p.length % 4 = 0 →
    (mapSamples4 f p).length = p.length
  | [], _ => rfl
  | [a], h => by simp at h
  | [a, b], h => by simp at h
  | [a, b, c], h => by simp at h
  | a :: b :: c :: d :: rest, h => by
    have hrec := mapSamples4_length f rest
      (by simp only [List.length_cons] at h; omega)
    simp [mapSamples4, natToBytesLE_length, hrec]
    omega

lemma transformPayloadG_length (w : Nat) (fU8 : Nat → Nat) (fS : Int → Int)
    (p q : Bytes) (h : transformPayloadG w fU8 fS p = .ok q) :
    q.length = p.length := by
  unfold transformPayloadG at h
  split_ifs at h with h1 h2 h3 h4 h5
  · cases h; simp
  · cases h; exact mapSamples2_length fS p h3
  · cases h; exact mapSamples4_length fS p h5

lemma rawStream_length_eq (L : ChunkSet) (h4 : ∀ c ∈ L, c.1.length = 4) :
    (rawStream L).length = L.foldr (fun c n => 8 + c.2.length + n) 0 := by
  induction L with
  | nil => rfl
  | cons c r ih =>
    have hc := h4 c (by simp)
    rw [rawStream_cons]
    simp only [List.length_append, leU32_length, hc, List.foldr_cons,
      ih (fun c' h => h4 c' (by simp [h]))]
    omega

lemma map_decode_ascii (L : ChunkSet) (hok : ∀ c ∈ L, ∀ b ∈ c.1, b < 128) :
    L.map (fun c => (decodeAsciiReplace c.1, c.2)) = L := by
  induction L with
  | nil => rfl
  | cons c r ih =>
    rw [List.map_cons, decodeAsciiReplace_ascii c.1 (hok c (by simp)),
      ih (fun c' h => hok c' (by simp [h]))]

/-! ## Claim theorems -/

/-- C1 (amended): applying the gain transform with `gain_db = 0`, i.e. with
linear factor exactly 1.0, maps the data payload to itself for sample widths
1 and 2 — `round(x * 1.0) == x` holds for every representable 8-bit and
16-bit sample value along the float32 conversion path.  (For width 4 it
fails; see the counterexample.) -/
theorem c1_gain_zero_identity (payload : Bytes) (hb : ∀ b ∈ payload, b < 256) :
    transformPayload 1 1 payload = .ok payload ∧
    (payload.length % 2 = 0 → transformPayload 2 1 payload = .ok payload) := by
  constructor
  · simp [transformPayload, transformPayloadG, map_transformSampleU8_one payload hb]
  · intro he
    simp [transformPayload, transformPayloadG, he, mapSamples2_id payload hb he]

/-- Witness for C1 at concrete payloads for both widths. -/
theorem c1_gain_zero_identity_witness :
    transformPayload 1 1 [0, 255] = .ok [0, 255] ∧
    transformPayload 2 1 [255, 127] = .ok [255, 127] :=
  ⟨(c1_gain_zero_identity [0, 255] (by decide)).1,
   (c1_gain_zero_identity [255, 127] (by decide)).2 (by decide)⟩

/-- C1 counterexample: with sample width 4 and factor 1 (gain 0 dB), the
full decode–transform–encode pipeline is not the identity: the 32-bit sample
`16777217 = 2^24 + 1` is not float32-representable and becomes `16777216`,
so the output buffer differs from the input buffer. -/
theorem c1_counterexample :
    processBuffer
        (riffTag ++ leU32 16 ++ waveTag ++ (dataId ++ leU32 4 ++ [1, 0, 0, 1])) 4 1 =
      .ok (riffTag ++ leU32 16 ++ waveTag ++ (dataId ++ leU32 4 ++ [0, 0, 0, 1])) ∧
    ([0, 0, 0, 1] : Bytes) ≠ [1, 0, 0, 1] :=
  ⟨rfl, by decide⟩

/-- C2 (amended): decoding never fails because a chunk identifier is not
valid text, but the identifier is not kept opaque: each byte ≥ 128 is
replaced by U+FFFD.  A chunk with an unrecognized identifier made of ASCII
bytes and an arbitrary binary payload survives decode → encode unchanged. -/
theorem c2_unknown_chunk_roundtrip (id payload : Bytes) (sz : Nat)
    (hid : id.length = 4) (hsz : sz < 2 ^ 32) (hp : payload.length < 2 ^ 32) :
    read_wav_chunks
        (riffTag ++ leU32 sz ++ waveTag ++ (id ++ leU32 payload.length ++ payload)) =
      .ok ([(decodeAsciiReplace id, payload)], sz) ∧
    ((∀ b ∈ id, b < 128) →
      write_wav_chunks [(decodeAsciiReplace id, payload)] sz =
        some (riffTag ++ leU32 sz ++ waveTag ++
          (id ++ leU32 payload.length ++ payload))) := by
  have hbody : id ++ leU32 payload.length ++ payload = rawStream [(id, payload)] := by
    simp [rawStream, chunkBytes]
  have hblen : (id ++ leU32 payload.length ++ payload).length = 8 + payload.length := by
    simp [hid, leU32_length]; omega
  constructor
  · rw [read_wav_chunks_append _ _ hsz, hbody,
      readChunksGo_rawStream [(id, payload)] _ []
        (by simpa using hid) (by simpa using hp) (by simp)
        (by rw [← hbody, hblen]
            simp only [List.length_cons, List.length_nil]
            omega)]
    simp [foldIns, dictInsert]
  · intro hascii
    have hall : [((decodeAsciiReplace id, payload) : Chunk)].all chunkOk = true := by
      simp only [List.all_cons, List.all_nil, Bool.and_true, chunkOk,
        decodeAsciiReplace_ascii id hascii, Bool.and_eq_true, decide_eq_true_eq]
      exact ⟨List.all_eq_true.2 (fun b hb => by simpa using hascii b hb), hp⟩
    rw [write_wav_chunks, if_pos hsz, writeChunksList, if_pos hall,
      decodeAsciiReplace_ascii id hascii]
    rw [Option.map_some']
    rw [← hbody]

/-- Witness for C2 with a concrete unknown ASCII identifier and binary
payload. -/
theorem c2_unknown_chunk_roundtrip_witness :
    read_wav_chunks
        (riffTag ++ leU32 33 ++ waveTag ++
          ([106, 107, 108, 109] ++ leU32 3 ++ [250, 0, 251])) =
      .ok ([(decodeAsciiReplace [106, 107, 108, 109], [250, 0, 251])], 33) ∧
    ((∀ b ∈ ([106, 107, 108, 109] : Bytes), b < 128) →
      write_wav_chunks [(decodeAsciiReplace [106, 107, 108, 109], [250, 0, 251])] 33 =
        some (riffTag ++ leU32 33 ++ waveTag ++
          ([106, 107, 108, 109] ++ leU32 3 ++ [250, 0, 251]))) :=
  c2_unknown_chunk_roundtrip [106, 107, 108, 109] [250, 0, 251] 33
    (by decide) (by decide) (by decide)

/-- C2 counterexample: a chunk identifier containing the non-ASCII byte 255
is not kept as an opaque 4-byte value — decode replaces the byte with U+FFFD
(65533) — and re-encoding the decoded chunk set fails with
`UnicodeEncodeError`, so the chunk does not survive decode → encode. -/
theorem c2_counterexample :
    read_wav_chunks
        (riffTag ++ leU32 20 ++ waveTag ++ ([97, 97, 97, 255] ++ leU32 2 ++ [7, 8])) =
      .ok ([([97, 97, 97, 65533], [7, 8])], 20) ∧
    ([97, 97, 97, 65533] : ChunkId) ≠ [97, 97, 97, 255] ∧
    write_wav_chunks [([97, 97, 97, 65533], [7, 8])] 20 = none :=
  ⟨rfl, by decide, rfl⟩

/-- C3 (amended): encoding writes each chunk as identifier + little-endian
payload length + payload with no forced trailing pad byte (the stream length
is exactly the sum of `8 + payload length`), and decoding the emitted bytes
succeeds and returns the same chunks provided every payload except possibly
the last has even length.  (With an odd-length non-last payload the pad-skip
rule desynchronizes decoding; see the counterexample.) -/
theorem c3_encode_decode_roundtrip (L : ChunkSet) (sz : Nat) (data : Bytes)
    (henc : write_wav_chunks L sz = some data)
    (h4 : ∀ c ∈ L, c.1.length = 4)
    (hnd : (L.map Prod.fst).Nodup)
    (heven : ∀ c ∈ L.dropLast, c.2.length % 2 = 0) :
    data = riffTag ++ leU32 sz ++ waveTag ++ rawStream L ∧
    (rawStream L).length = L.foldr (fun c n => 8 + c.2.length + n) 0 ∧
    read_wav_chunks data = .ok (L, sz) := by
  obtain ⟨hsz, hok, hdata⟩ := write_wav_chunks_some L sz data henc
  refine ⟨hdata, rawStream_length_eq L h4, ?_⟩
  rw [hdata, read_wav_chunks_append _ _ hsz,
    readChunksGo_rawStream L _ [] h4 (fun c hc => (hok c hc).2) heven
      (by have := rawStream_length_ge L h4; omega),
    map_decode_ascii L (fun c hc => (hok c hc).1),
    foldIns_nodup L [] (by simp) hnd]
  simp

/-- Witness for C3 at a concrete two-chunk set whose last payload is odd. -/
theorem c3_encode_decode_roundtrip_witness :
    read_wav_chunks
        (riffTag ++ leU32 30 ++ waveTag ++
          rawStream [(dataId, [1, 2]), ([115, 109, 112, 108], [5])]) =
      .ok ([(dataId, [1, 2]), ([115, 109, 112, 108], [5])], 30) :=
  (c3_encode_decode_roundtrip [(dataId, [1, 2]), ([115, 109, 112, 108], [5])]
    30 _ rfl (by decide) (by decide) (by decide)).2.2

/-- C3 counterexample: for a chunk set whose first payload has odd length,
encode emits no pad byte but decode still skips one, so decoding encode's
output succeeds yet returns different chunks — the round trip fails. -/
theorem c3_counterexample :
    write_wav_chunks [([97, 97, 97, 97], [0]), ([98, 98, 98, 98], [1, 2])] 40 =
      some (riffTag ++ leU32 40 ++ waveTag ++
        (([97, 97, 97, 97] ++ leU32 1 ++ [0]) ++
          (([98, 98, 98, 98] ++ leU32 2 ++ [1, 2]) ++ []))) ∧
    read_wav_chunks
        (riffTag ++ leU32 40 ++ waveTag ++
          (([97, 97, 97, 97] ++ leU32 1 ++ [0]) ++
            (([98, 98, 98, 98] ++ leU32 2 ++ [1, 2]) ++ []))) =
      .ok ([([97, 97, 97, 97], [0])], 40) ∧
    ([([97, 97, 97, 97], [0])] : ChunkSet) ≠
      [([97, 97, 97, 97], [0]), ([98, 98, 98, 98], [1, 2])] :=
  ⟨rfl, rfl, by decide⟩

/-- C4: evaluation of the clamp at the specification's inputs and at the
failing input.  For width 2 both documented checks hold, but for width 4 the
claim fails: the clip bound `2^31 - 1` is not float32-representable and
becomes `2^31`, so the sample `1500000000` scaled by factor 2 (to
`3000000000`) is clipped to `2^31` and the conversion back to `int32`
produces `-2^31` — the value wraps to negative instead of hard-clipping to
`2^31 - 1`. -/
theorem c4_clamp_evaluation :
    transformSampleSigned 2 2 32767 = 32767 ∧
    transformSampleSigned 2 2 (-32768) = -32768 ∧
    transformSampleSigned 4 2 1500000000 = -2147483648 ∧
    ¬ transformSampleSigned 4 2 1500000000 = 2147483647 := by decide

/-- C5: for a buffer whose container and format tags are valid, decoding
always returns successfully, and the chunk loop stops and returns the chunks
accumulated so far both when fewer than 8 bytes remain for a header and when
the declared payload length would read past the end of the buffer. -/
theorem c5_truncation_tolerated (data : Bytes)
    (h1 : data.take 4 = riffTag) (h2 : (data.drop 8).take 4 = waveTag) :
    (∃ cs fileSize, read_wav_chunks data = .ok (cs, fileSize)) ∧
    (∀ (fuel : Nat) (rest : Bytes) (cs : ChunkSet), rest.length < 8 →
      readChunksGo fuel rest cs = cs) ∧
    (∀ (fuel : Nat) (rest : Bytes) (cs : ChunkSet), 8 ≤ rest.length →
      rest.length < 8 + readU32 (rest.drop 4) → readChunksGo fuel rest cs = cs) := by
  refine ⟨?_, readChunksGo_short, readChunksGo_truncated⟩
  have hlen12 : 12 ≤ data.length := by
    have h := congrArg List.length h2
    simp only [List.length_take, List.length_drop] at h
    rw [show waveTag.length = 4 from rfl] at h
    omega
  refine ⟨readChunksGo ((data.drop 12).length + 1) (data.drop 12) [],
    readU32 (data.drop 4), ?_⟩
  rw [read_wav_chunks, h1, h2]
  rw [if_neg (by decide), if_neg (by simp), if_neg (by omega), if_neg (by decide),
    if_neg (by simp)]

/-- Witness for C5: a buffer that ends in a truncated chunk region still
decodes successfully. -/
theorem c5_truncation_tolerated_witness :
    ∃ cs fileSize,
      read_wav_chunks (riffTag ++ leU32 100 ++ waveTag ++ [97, 98, 99]) =
        .ok (cs, fileSize) :=
  (c5_truncation_tolerated (riffTag ++ leU32 100 ++ waveTag ++ [97, 98, 99])
    (by rfl) (by rfl)).1

/-- C6: for any sample width outside {1, 2, 4} the gain transform fails with
the `UnsupportedFormatError` kind, and the chunk dict is exactly the input
dict — no chunk is modified, because the error is raised before the payload
replacement.  Stated for arbitrary per-sample maps, hence for every gain
value. -/
theorem c6_unsupported_width (chunks : ChunkSet) (sz w : Nat)
    (fU8 : Nat → Nat) (fS : Int → Int) (audio : Bytes)
    (hdata : dictLookup dataId chunks = some audio)
    (hw1 : w ≠ 1) (hw2 : w ≠ 2) (hw4 : w ≠ 4) :
    reduceVolumeG chunks sz w fU8 fS = (chunks, .error .unsupportedFormat) := by
  simp only [reduceVolumeG, hdata, transformPayloadG, if_neg hw1, if_neg hw2,
    if_neg hw4]

/-- Witness for C6 at sample width 3. -/
theorem c6_unsupported_width_witness :
    reduceVolumeG [(dataId, [0])] 10 3 id id =
      ([(dataId, [0])], .error .unsupportedFormat) :=
  c6_unsupported_width [(dataId, [0])] 10 3 id id [0] rfl
    (by decide) (by decide) (by decide)

/-- C7: the gain transform touches only the `data` chunk: for every chunk
identifier other than `data`, the lookup in the resulting chunk dict is
byte-identical to the lookup in the input dict.  Stated for arbitrary
per-sample maps (hence for every gain value) and it also covers the error
paths, where the dict is returned unchanged. -/
theorem c7_other_chunks_preserved (chunks : ChunkSet) (sz w : Nat)
    (fU8 : Nat → Nat) (fS : Int → Int) (id : ChunkId) (hid : id ≠ dataId) :
    dictLookup id (reduceVolumeG chunks sz w fU8 fS).1 = dictLookup id chunks := by
  rw [reduceVolumeG]
  cases hd : dictLookup dataId chunks with
  | none => rfl
  | some audio =>
    cases ht : transformPayloadG w fU8 fS audio with
    | error e => simp only [ht]
    | ok nf =>
      simp only [ht]
      rw [dictLookup_insert, if_neg (fun h => hid h.symm)]

/-- Witness for C7: an `smpl` chunk survives the transform byte-identically. -/
theorem c7_other_chunks_preserved_witness :
    dictLookup [115, 109, 112, 108]
        (reduceVolumeG
          [([102, 109, 116, 32], [16]), ([115, 109, 112, 108], [9, 9]),
            (dataId, [1, 2])] 50 2 id id).1 =
      some [9, 9] := by
  rw [c7_other_chunks_preserved _ 50 2 id id _ (by decide)]
  rfl

/-- C8: when chunks in the encoded source bytes share an identifier, decode
returns a dict whose payload for that identifier is the payload of the last
such chunk in the stream (last-write-wins), and identifiers absent from the
stream are absent from the dict. -/
theorem c8_last_occurrence_wins (L : ChunkSet) (sz : Nat) (data : Bytes)
    (henc : write_wav_chunks L sz = some data)
    (h4 : ∀ c ∈ L, c.1.length = 4)
    (heven : ∀ c ∈ L.dropLast, c.2.length % 2 = 0) :
    ∃ cs, read_wav_chunks data = .ok (cs, sz) ∧
      ∀ id, dictLookup id cs =
        ((L.filter (fun c => decide (c.1 = id))).getLast?).map Prod.snd := by
  obtain ⟨hsz, hok, hdata⟩ := write_wav_chunks_some L sz data henc
  rw [hdata, read_wav_chunks_append _ _ hsz,
    readChunksGo_rawStream L _ [] h4 (fun c hc => (hok c hc).2) heven
      (by have := rawStream_length_ge L h4; omega),
    map_decode_ascii L (fun c hc => (hok c hc).1)]
  refine ⟨_, rfl, ?_⟩
  intro id
  rw [foldIns_lookup]
  cases (L.filter (fun c => decide (c.1 = id))).getLast? with
  | none => rfl
  | some c => rfl

/-- Witness for C8: two chunks with the same identifier; the second payload
survives. -/
theorem c8_last_occurrence_wins_witness :
    ∃ cs, read_wav_chunks
        (riffTag ++ leU32 28 ++ waveTag ++
          rawStream [([97, 97, 97, 97], [1, 2]), ([97, 97, 97, 97], [3, 4])]) =
        .ok (cs, 28) ∧
      ∀ id, dictLookup id cs =
        (([([97, 97, 97, 97], [1, 2]), ([97, 97, 97, 97], [3, 4])].filter
          (fun c => decide (c.1 = id))).getLast?).map Prod.snd :=
  c8_last_occurrence_wins [([97, 97, 97, 97], [1, 2]), ([97, 97, 97, 97], [3, 4])]
    28 _ rfl (by decide) (by decide)

/-- C9: on every successful run, the size value passed to the header writer
equals `original_declared_size - old_audio_payload_len + new_audio_payload_len`.
(The source computes `original_size - len(chunks['data']) + len(new_frames)`
after having already replaced `chunks['data']`, which coincides with the
claimed formula because the transform always preserves the payload length.) -/
theorem c9_header_size_formula (chunks chunks' : ChunkSet) (sz w : Nat)
    (fU8 : Nat → Nat) (fS : Int → Int) (newSize : Int) (oldPayload : Bytes)
    (hold : dictLookup dataId chunks = some oldPayload)
    (h : reduceVolumeG chunks sz w fU8 fS = (chunks', .ok newSize)) :
    ∃ newPayload, dictLookup dataId chunks' = some newPayload ∧
      newSize = (sz : Int) - oldPayload.length + newPayload.length := by
  simp only [reduceVolumeG, hold] at h
  cases ht : transformPayloadG w fU8 fS oldPayload with
  | error e => rw [ht] at h; simp at h
  | ok nf =>
    rw [ht] at h
    simp only [Prod.mk.injEq, Except.ok.injEq] at h
    obtain ⟨h1, h2⟩ := h
    have hlen := transformPayloadG_length w fU8 fS oldPayload nf ht
    refine ⟨nf, ?_, ?_⟩
    · rw [← h1, dictLookup_insert, if_pos rfl]
    · rw [← h2]
      simp [dictLookup_insert]
      omega

/-- Witness for C9 at a concrete two-byte payload (identity per-sample map). -/
theorem c9_header_size_formula_witness :
    ∃ newPayload, dictLookup dataId [(dataId, [3, 4])] = some newPayload ∧
      (20 : Int) = (20 : Nat) - (([3, 4] : Bytes).length : Int) + newPayload.length :=
  c9_header_size_formula [(dataId, [3, 4])] [(dataId, [3, 4])] 20 2 id id 20 [3, 4]
    rfl rfl

/-- C10 (implicit claim): for widths 2 and 4, a data payload whose length is
not a multiple of the sample width makes the gain transform fail while
reinterpreting the payload (`np.frombuffer` raises), leaving the chunks
unmodified; and this error kind is distinct from every error kind the
specification lists. -/
theorem c10_odd_payload_errors (chunks : ChunkSet) (sz w : Nat)
    (fU8 : Nat → Nat) (fS : Int → Int) (audio : Bytes)
    (hdata : dictLookup dataId chunks = some audio)
    (hw : w = 2 ∨ w = 4)
    (hlen : ¬ audio.length % w = 0) :
    reduceVolumeG chunks sz w fU8 fS = (chunks, .error .bufferSize) ∧
    PyError.bufferSize ≠ .formatError ∧ PyError.bufferSize ≠ .missingChunk ∧
    PyError.bufferSize ≠ .unsupportedFormat := by
  refine ⟨?_, by decide, by decide, by decide⟩
  rcases hw with rfl | rfl
  · simp [reduceVolumeG, hdata, transformPayloadG, hlen]
  · simp [reduceVolumeG, hdata, transformPayloadG, hlen]

/-- Witness for C10: width 2 with a one-byte payload. -/
theorem c10_odd_payload_errors_witness :
    reduceVolumeG [(dataId, [1])] 9 2 id id = ([(dataId, [1])], .error .bufferSize) ∧
    PyError.bufferSize ≠ .formatError ∧ PyError.bufferSize ≠ .missingChunk ∧
    PyError.bufferSize ≠ .unsupportedFormat :=
  c10_odd_payload_errors [(dataId, [1])] 9 2 id id [1] rfl (Or.inl rfl) (by decide)

end AdjustWav
